import Mathlib

/-!
Verification development for the eosio-contract-api indexer core.

The definitions below are shallow embeddings of the TypeScript source:
the AtomicMarketHandler contract handler (its p-queue based update and
notification queues, the reversibility gate, and the per-block lifecycle
hooks onBlockComplete and onCommit), the deserialization worker, the
atomicmarket_stats_markets_master SQL view, the single-entity HTTP
endpoints, and the POST /v1/token authentication endpoint.
-/

namespace EosioContractApi

/-- A job queued into the handler per-block update queue via addUpdateJob.
`seq` is the enqueue sequence number (position of the addUpdateJob call),
`priority` the numeric p-queue priority passed by the handler. -/
structure UpdateJob where
  seq : Nat
  priority : Nat
  deriving DecidableEq, Repr

/-- Insertion into the pending list of a p-queue (PQueue with concurrency 1):
the new element is placed before the first pending element of strictly
smaller priority, i.e. after every element of priority greater than or
equal to its own.  Hence higher priorities run first and equal priorities
keep FIFO order. -/
def pqueueAdd (j : UpdateJob) : List UpdateJob → List UpdateJob
  | [] => [j]
  | x :: xs => if x.priority < j.priority then j :: x :: xs else x :: pqueueAdd j xs

/-- The run order produced by a paused concurrency-1 p-queue once started:
jobs are inserted one by one in enqueue order. -/
def drainOrder (js : List UpdateJob) : List UpdateJob :=
  js.foldl (fun acc j => pqueueAdd j acc) []

/-- Strict scheduling order of the p-queue: a runs before b because a has
higher priority, or equal priority and an earlier enqueue sequence number. -/
def jobOrder (a b : UpdateJob) : Prop :=
  b.priority < a.priority ∨ (b.priority = a.priority ∧ a.seq < b.seq)

theorem jobOrder_priority_le {a b : UpdateJob} (h : jobOrder a b) : b.priority ≤ a.priority := by
  rcases h with h | ⟨h, _⟩
  · exact Nat.le_of_lt h
  · exact Nat.le_of_eq h

theorem pqueueAdd_perm (j : UpdateJob) (l : List UpdateJob) : (pqueueAdd j l).Perm (j :: l) := by
  induction l with
  | nil => simp [pqueueAdd]
  | cons x xs ih =>
    simp only [pqueueAdd]
    by_cases h : x.priority < j.priority
    · simp [h]
    · simp only [h, if_false]
      exact (ih.cons x).trans (List.Perm.swap j x xs)

theorem mem_pqueueAdd {y j : UpdateJob} {l : List UpdateJob} (h : y ∈ pqueueAdd j l) :
    y = j ∨ y ∈ l := by
  have := (pqueueAdd_perm j l).mem_iff.mp h
  simpa using this

/-- pqueueAdd preserves the non-increasing priority invariant of the pending
list, with no assumption on sequence numbers. -/
theorem pqueueAdd_sorted (j : UpdateJob) (l : List UpdateJob)
    (hl : l.Pairwise (fun a b => b.priority ≤ a.priority)) :
    (pqueueAdd j l).Pairwise (fun a b => b.priority ≤ a.priority) := by
  induction l with
  | nil => simp [pqueueAdd]
  | cons x xs ih =>
    rcases List.pairwise_cons.mp hl with ⟨hx, hxs⟩
    simp only [pqueueAdd]
    by_cases h : x.priority < j.priority
    · simp only [h, if_true]
      refine List.pairwise_cons.mpr ⟨?_, hl⟩
      intro y hy
      rcases List.mem_cons.mp hy with hy | hy
      · subst hy
        exact Nat.le_of_lt h
      · exact Nat.le_trans (hx y hy) (Nat.le_of_lt h)
    · simp only [h, if_false]
      refine List.pairwise_cons.mpr ⟨?_, ih hxs⟩
      intro y hy
      rcases mem_pqueueAdd hy with hy | hy
      · subst hy
        exact Nat.le_of_not_lt h
      · exact hx y hy

/-- pqueueAdd preserves the full scheduling order (priority plus FIFO among
equals) provided the new job was enqueued after everything pending. -/
theorem pqueueAdd_pairwise (j : UpdateJob) (l : List UpdateJob)
    (hl : l.Pairwise jobOrder) (hseq : ∀ x ∈ l, x.seq < j.seq) :
    (pqueueAdd j l).Pairwise jobOrder := by
  induction l with
  | nil => simp [pqueueAdd]
  | cons x xs ih =>
    rcases List.pairwise_cons.mp hl with ⟨hx, hxs⟩
    simp only [pqueueAdd]
    by_cases h : x.priority < j.priority
    · simp only [h, if_true]
      refine List.pairwise_cons.mpr ⟨?_, hl⟩
      intro y hy
      rcases List.mem_cons.mp hy with hy | hy
      · subst hy
        exact Or.inl h
      · exact Or.inl (Nat.lt_of_le_of_lt (jobOrder_priority_le (hx y hy)) h)
    · simp only [h, if_false]
      refine List.pairwise_cons.mpr ⟨?_, ih hxs (fun x hx2 => hseq x (List.mem_cons_of_mem _ hx2))⟩
      intro y hy
      rcases mem_pqueueAdd hy with hy | hy
      · subst hy
        rcases Nat.lt_or_ge y.priority x.priority with hlt | hge
        · exact Or.inl hlt
        · have hpe : y.priority = x.priority := Nat.le_antisymm (Nat.le_of_not_lt h) hge
          exact Or.inr ⟨hpe, hseq x (List.mem_cons_self x xs)⟩
      · exact hx y hy

theorem drainOrder_aux_perm (js : List UpdateJob) :
    ∀ l : List UpdateJob, (js.foldl (fun acc j => pqueueAdd j acc) l).Perm (l ++ js) := by
  induction js with
  | nil => intro l; simp
  | cons j rest ih =>
    intro l
    have h1 : (rest.foldl (fun acc j => pqueueAdd j acc) (pqueueAdd j l)).Perm (pqueueAdd j l ++ rest) := ih (pqueueAdd j l)
    have h2 : (pqueueAdd j l ++ rest).Perm ((j :: l) ++ rest) := (pqueueAdd_perm j l).append_right rest
    have h3 : ((j :: l) ++ rest).Perm (l ++ j :: rest) := by
      simpa using List.perm_middle.symm
    simpa using (h1.trans (h2.trans h3))

/-- Every enqueued job appears in the drain order and nothing else does. -/
theorem drainOrder_perm (js : List UpdateJob) : (drainOrder js).Perm js := by
  simpa using drainOrder_aux_perm js []

theorem drainOrder_aux_pairwise (js : List UpdateJob) :
    ∀ l : List UpdateJob, l.Pairwise jobOrder →
      (∀ x ∈ l, ∀ j ∈ js, x.seq < j.seq) →
      js.Pairwise (fun a b => a.seq < b.seq) →
      (js.foldl (fun acc j => pqueueAdd j acc) l).Pairwise jobOrder := by
  induction js with
  | nil => intro l hl _ _; simpa using hl
  | cons j rest ih =>
    intro l hl hcross hjs
    rcases List.pairwise_cons.mp hjs with ⟨hj, hrest⟩
    refine ih (pqueueAdd j l) ?_ ?_ hrest
    · exact pqueueAdd_pairwise j l hl (fun x hx => hcross x hx j (List.mem_cons_self j rest))
    · intro x hx j2 hj2
      rcases mem_pqueueAdd hx with hx | hx
      · subst hx
        exact hj j2 hj2
      · exact hcross x hx j2 (List.mem_cons_of_mem _ hj2)

/-- If the sequence numbers reflect the enqueue order, the drain order is
pairwise consistent with the full scheduling order. -/
theorem drainOrder_pairwise (js : List UpdateJob)
    (hjs : js.Pairwise (fun a b => a.seq < b.seq)) :
    (drainOrder js).Pairwise jobOrder := by
  refine drainOrder_aux_pairwise js [] (by simp) (by simp) hjs

theorem drainOrder_aux_sorted (js : List UpdateJob) :
    ∀ l : List UpdateJob, l.Pairwise (fun a b => b.priority ≤ a.priority) →
      (js.foldl (fun acc j => pqueueAdd j acc) l).Pairwise (fun a b => b.priority ≤ a.priority) := by
  induction js with
  | nil => intro l hl; simpa using hl
  | cons j rest ih =>
    intro l hl
    exact ih (pqueueAdd j l) (pqueueAdd_sorted j l hl)

/-- The drain order is always non-increasing in priority. -/
theorem drainOrder_sorted (js : List UpdateJob) :
    (drainOrder js).Pairwise (fun a b => b.priority ≤ a.priority) := by
  exact drainOrder_aux_sorted js [] (by simp)

/-- The numeric sale states persisted by the AtomicMarket handler. -/
inductive SaleState where
  | WAITING
  | LISTED
  | CANCELED
  | SOLD
  deriving DecidableEq, Repr

def SaleState.val : SaleState → Nat
  | .WAITING => 0
  | .LISTED => 1
  | .CANCELED => 2
  | .SOLD => 3

/-- The numeric auction states persisted by the AtomicMarket handler.  The
source enum stops at CANCELED: sold and invalid auctions are derived by
queries, never stored. -/
inductive AuctionState where
  | WAITING
  | LISTED
  | CANCELED
  deriving DecidableEq, Repr

def AuctionState.val : AuctionState → Nat
  | .WAITING => 0
  | .LISTED => 1
  | .CANCELED => 2

/-- The per-block job priority constants of the AtomicMarket handler. -/
inductive JobPriority where
  | TABLE_BALANCES
  | TABLE_MARKETPLACES
  | TABLE_CONFIG
  | ACTION_CREATE_SALE
  | ACTION_CREATE_AUCTION
  | TABLE_AUCTIONS
  | TABLE_SALES
  | ACTION_UPDATE_SALE
  | ACTION_UPDATE_AUCTION
  deriving DecidableEq, Repr

def JobPriority.val : JobPriority → Nat
  | .TABLE_BALANCES => 90
  | .TABLE_MARKETPLACES => 90
  | .TABLE_CONFIG => 90
  | .ACTION_CREATE_SALE => 80
  | .ACTION_CREATE_AUCTION => 80
  | .TABLE_AUCTIONS => 70
  | .TABLE_SALES => 70
  | .ACTION_UPDATE_SALE => 50
  | .ACTION_UPDATE_AUCTION => 50

/-- The concurrency option both handler queues are constructed with. -/
def amQueueConcurrency : Nat := 1

/-- The autoStart option both handler queues are constructed with: the
constructor additionally calls pause on both queues. -/
def amQueueAutoStart : Bool := false

/-- The block header fields the notification payload copies. -/
structure ShipBlock where
  block_num : Nat
  block_id : String
  deriving DecidableEq, Repr

/-- The JSON record published on the bus: exactly the fields transaction,
block (with block_num and block_id), action and data.  The transaction is
the txid of the enclosing transaction, or none when the push carries no
transaction. -/
structure NotifPayload where
  transaction : Option String
  block_num : Nat
  block_id : String
  action : String
  data : Nat
  deriving DecidableEq, Repr

/-- A staged notification: target channel name plus payload. -/
structure NotifMsg where
  channel : String
  payload : NotifPayload
  deriving DecidableEq, Repr

/-- Connection and reader names used to build channel names
(this.connection.chain.name, this.reader.name, this.args.atomicmarket_account). -/
structure NotifCfg where
  chainName : String
  readerName : String
  marketAccount : String
  deriving DecidableEq, Repr

/-- The view of the contract database transaction the handler consults:
the block being processed and the last irreversible block. -/
structure DBTx where
  currentBlock : Nat
  lastIrreversibleBlock : Nat
  deriving DecidableEq, Repr

/-- The mutable fields of AtomicMarketHandler: the reversible flag, the
update queue (paused flag plus pending list in run order) with its promise
list updateJobs, and the notification queue (paused flag plus pending FIFO)
with its promise list notificationJobs. -/
structure AMState where
  reversible : Bool
  updatePaused : Bool
  updatePending : List UpdateJob
  updateJobs : List UpdateJob
  notifPaused : Bool
  notifPending : List NotifMsg
  notificationJobs : List NotifMsg
  deriving DecidableEq, Repr

/-- Handler state right after the constructor ran: reversible is false,
both queues are paused and empty, both job lists are empty. -/
def amInitialState : AMState :=
  ⟨false, true, [], [], true, [], []⟩

/-- The channel name and payload built inside the notification job:
the colon join of the six channel components, and the JSON record. -/
def mkNotifMsg (cfg : NotifCfg) (block : ShipBlock) (tx : Option String)
    (topic name : String) (data : Nat) : NotifMsg :=
  ⟨String.intercalate ":"
      ["eosio-contract-api", cfg.chainName, cfg.readerName, "atomicmarket", cfg.marketAccount, topic],
   ⟨tx, block.block_num, block.block_id, name, data⟩⟩

/-- AtomicMarketHandler.pushNotificiation: returns without any effect when
the handler is not reversible; otherwise stages a notification job on the
notification queue and records its promise.  The second component is the
list of messages published immediately by the queue (which happens only if
the queue is running, i.e. not paused). -/
def pushNotificiation (cfg : NotifCfg) (s : AMState) (block : ShipBlock) (tx : Option String)
    (topic name : String) (data : Nat) : AMState × List NotifMsg :=
  if !s.reversible then (s, [])
  else
    let m := mkNotifMsg cfg block tx topic name data
    if s.notifPaused then
      ({s with notifPending := s.notifPending ++ [m],
               notificationJobs := s.notificationJobs ++ [m]}, [])
    else
      ({s with notificationJobs := s.notificationJobs ++ [m]}, [m])

/-- AtomicMarketHandler.addUpdateJob: adds the job to the update queue with
the given priority and records its promise.  The second component is the
list of jobs run immediately (only if the queue is running). -/
def addUpdateJob (s : AMState) (j : UpdateJob) : AMState × List UpdateJob :=
  if s.updatePaused then
    ({s with updatePending := pqueueAdd j s.updatePending,
             updateJobs := s.updateJobs ++ [j]}, [])
  else
    ({s with updateJobs := s.updateJobs ++ [j]}, [j])

/-- AtomicMarketHandler.onBlockComplete: recomputes the reversible flag
from db.currentBlock > db.lastIrreversibleBlock, starts the update queue
(the pending jobs run one at a time, front to back), awaits all recorded
promises, pauses the queue again and clears the promise list.  The second
component is the run order of the drained jobs. -/
def onBlockComplete (s : AMState) (db : DBTx) : AMState × List UpdateJob :=
  ({s with reversible := decide (db.currentBlock > db.lastIrreversibleBlock),
           updatePaused := true, updatePending := [], updateJobs := []},
   s.updatePending)

/-- AtomicMarketHandler.onCommit: starts the notification queue (the staged
jobs publish one at a time in FIFO order), awaits all recorded promises,
pauses the queue again and clears the promise list.  The second component
is the publish order of the released notifications. -/
def onCommit (s : AMState) : AMState × List NotifMsg :=
  ({s with notifPaused := true, notifPending := [], notificationJobs := []},
   s.notifPending)

/-- Events a handler performs while the traces and deltas of one block are
dispatched to it: pushing a notification or enqueueing an update job. -/
inductive BlockEv where
  | push (block : ShipBlock) (tx : Option String) (topic name : String) (data : Nat)
  | job (j : UpdateJob)
  deriving DecidableEq, Repr

/-- One handler event applied to the state, accumulating any messages the
notification queue published immediately. -/
def stepEv (cfg : NotifCfg) (sp : AMState × List NotifMsg) (ev : BlockEv) : AMState × List NotifMsg :=
  match ev with
  | .push block tx topic name data =>
      let r := pushNotificiation cfg sp.1 block tx topic name data
      (r.1, sp.2 ++ r.2)
  | .job j =>
      let r := addUpdateJob sp.1 j
      (r.1, sp.2)

/-- All events of one block applied in dispatch order. -/
def processEvents (cfg : NotifCfg) (s : AMState) (evs : List BlockEv) : AMState × List NotifMsg :=
  evs.foldl (stepEv cfg) (s, [])

/-- Outcome of one full block lifecycle. -/
structure BlockOutcome where
  finalState : AMState
  publishedBeforeCommit : List NotifMsg
  ranJobs : List UpdateJob
  publishedAfterCommit : List NotifMsg
  deriving DecidableEq, Repr

/-- One full block lifecycle of the handler: the traces and deltas are
dispatched (pushing notifications and enqueueing jobs), then onBlockComplete
drains the update queue, then the database transaction commits, then
onCommit releases the staged notifications. -/
def processBlock (cfg : NotifCfg) (s0 : AMState) (evs : List BlockEv) (db : DBTx) : BlockOutcome :=
  let p := processEvents cfg s0 evs
  let b := onBlockComplete p.1 db
  let c := onCommit b.1
  ⟨c.1, p.2, b.2, c.2⟩

/-- The message a block event would stage, if any. -/
def pushMsgOf (cfg : NotifCfg) : BlockEv → Option NotifMsg
  | .push block tx topic name data => some (mkNotifMsg cfg block tx topic name data)
  | .job _ => none

/-- addUpdateJob never touches the notification side nor the reversible flag. -/
theorem addUpdateJob_notif_frame (s : AMState) (j : UpdateJob) :
    (addUpdateJob s j).1.notifPaused = s.notifPaused ∧
    (addUpdateJob s j).1.reversible = s.reversible ∧
    (addUpdateJob s j).1.notifPending = s.notifPending ∧
    (addUpdateJob s j).1.notificationJobs = s.notificationJobs := by
  by_cases hu : s.updatePaused <;> simp [addUpdateJob, hu]

/-- onBlockComplete never touches the notification side. -/
theorem onBlockComplete_notif_frame (s : AMState) (db : DBTx) :
    (onBlockComplete s db).1.notifPaused = s.notifPaused ∧
    (onBlockComplete s db).1.notifPending = s.notifPending ∧
    (onBlockComplete s db).1.notificationJobs = s.notificationJobs := by
  simp [onBlockComplete]

/-- Invariant of the event phase: while the notification queue is paused no
event publishes anything, the reversible flag is untouched, and the pending
notifications grow by exactly the staged messages (in enqueue order) when
the handler is reversible, by nothing otherwise. -/
theorem foldl_stepEv_inv (cfg : NotifCfg) :
    ∀ (evs : List BlockEv) (s : AMState) (p : List NotifMsg), s.notifPaused = true →
      (evs.foldl (stepEv cfg) (s, p)).1.notifPaused = true ∧
      (evs.foldl (stepEv cfg) (s, p)).1.reversible = s.reversible ∧
      (evs.foldl (stepEv cfg) (s, p)).2 = p ∧
      (evs.foldl (stepEv cfg) (s, p)).1.notifPending =
        s.notifPending ++ (if s.reversible then evs.filterMap (pushMsgOf cfg) else []) := by
  intro evs
  induction evs with
  | nil =>
    intro s p hp
    simp [hp]
  | cons ev rest ih =>
    intro s p hp
    cases ev with
    | push block tx topic name data =>
      by_cases hrev : s.reversible
      · have hstep : stepEv cfg (s, p) (BlockEv.push block tx topic name data) =
            ({s with notifPending := s.notifPending ++ [mkNotifMsg cfg block tx topic name data],
                     notificationJobs := s.notificationJobs ++ [mkNotifMsg cfg block tx topic name data]}, p) := by
          simp [stepEv, pushNotificiation, hrev, hp]
        rw [List.foldl_cons, hstep]
        rcases ih {s with notifPending := s.notifPending ++ [mkNotifMsg cfg block tx topic name data],
                          notificationJobs := s.notificationJobs ++ [mkNotifMsg cfg block tx topic name data]}
            p hp with ⟨h1, h2, h3, h4⟩
        refine ⟨h1, by rw [h2], h3, ?_⟩
        rw [h4]
        simp [hrev, pushMsgOf]
      · have hstep : stepEv cfg (s, p) (BlockEv.push block tx topic name data) = (s, p) := by
          simp [stepEv, pushNotificiation, hrev]
        rw [List.foldl_cons, hstep]
        rcases ih s p hp with ⟨h1, h2, h3, h4⟩
        refine ⟨h1, h2, h3, ?_⟩
        rw [h4]
        simp [hrev]
    | job j =>
      have hstep : stepEv cfg (s, p) (BlockEv.job j) = ((addUpdateJob s j).1, p) := rfl
      rw [List.foldl_cons, hstep]
      rcases addUpdateJob_notif_frame s j with ⟨f1, f2, f3, f4⟩
      rcases ih (addUpdateJob s j).1 p (by rw [f1]; exact hp) with ⟨h1, h2, h3, h4⟩
      refine ⟨h1, by rw [h2, f2], h3, ?_⟩
      rw [h4, f2, f3]
      simp [pushMsgOf]

/-- A sequence of addUpdateJob calls, keeping only the handler state. -/
def enqueueJobs (s : AMState) (js : List UpdateJob) : AMState :=
  js.foldl (fun t j => (addUpdateJob t j).1) s

/-- While the update queue is paused, addUpdateJob only accumulates: the
pending list receives each job through the priority insertion and the
promise list grows in enqueue order. -/
theorem enqueueJobs_fields (js : List UpdateJob) :
    ∀ s : AMState, s.updatePaused = true →
      (enqueueJobs s js).updatePaused = true ∧
      (enqueueJobs s js).updatePending = js.foldl (fun acc j => pqueueAdd j acc) s.updatePending ∧
      (enqueueJobs s js).updateJobs = s.updateJobs ++ js := by
  induction js with
  | nil =>
    intro s hp
    simp [enqueueJobs, hp]
  | cons j rest ih =>
    intro s hp
    have hstep : (addUpdateJob s j).1 =
        {s with updatePending := pqueueAdd j s.updatePending, updateJobs := s.updateJobs ++ [j]} := by
      simp [addUpdateJob, hp]
    have hun : enqueueJobs s (j :: rest) = enqueueJobs (addUpdateJob s j).1 rest := rfl
    rw [hun, hstep]
    rcases ih {s with updatePending := pqueueAdd j s.updatePending,
                      updateJobs := s.updateJobs ++ [j]} hp with ⟨h1, h2, h3⟩
    refine ⟨h1, ?_, ?_⟩
    · rw [h2]
      rfl
    · rw [h3]
      simp

/-- C1.  For every block, no notification staged via pushNotificiation
during the processing of that block is published before the database
transaction of the block commits: the notification queue starts out paused,
stays paused through every event, and is started only inside onCommit,
which runs after the commit; there the staged jobs are released serially in
enqueue order, after which the staged list is empty and the queue is paused
again. -/
theorem processBlock_publishes_only_after_commit (cfg : NotifCfg) (s0 : AMState)
    (evs : List BlockEv) (db : DBTx)
    (hp : s0.notifPaused = true) (hpend : s0.notifPending = []) :
    (processBlock cfg s0 evs db).publishedBeforeCommit = [] ∧
    (processBlock cfg s0 evs db).publishedAfterCommit =
      (if s0.reversible then evs.filterMap (pushMsgOf cfg) else []) ∧
    (processBlock cfg s0 evs db).finalState.notificationJobs = [] ∧
    (processBlock cfg s0 evs db).finalState.notifPending = [] ∧
    (processBlock cfg s0 evs db).finalState.notifPaused = true := by
  rcases foldl_stepEv_inv cfg evs s0 [] hp with ⟨_, _, h3, h4⟩
  have hbefore : (processBlock cfg s0 evs db).publishedBeforeCommit = [] := h3
  have hafter : (processBlock cfg s0 evs db).publishedAfterCommit =
      (if s0.reversible then evs.filterMap (pushMsgOf cfg) else []) := by
    show (onCommit (onBlockComplete (processEvents cfg s0 evs).1 db).1).2 = _
    rcases onBlockComplete_notif_frame (processEvents cfg s0 evs).1 db with ⟨_, hbp, _⟩
    show (onBlockComplete (processEvents cfg s0 evs).1 db).1.notifPending = _
    rw [hbp]
    show (processEvents cfg s0 evs).1.notifPending = _
    rw [show (processEvents cfg s0 evs).1 = (evs.foldl (stepEv cfg) (s0, [])).1 from rfl, h4, hpend]
    simp
  refine ⟨hbefore, hafter, rfl, rfl, rfl⟩

/-- A table or action handler writing a database row and then pushing a
notification for it: the row write always goes through the transaction,
the notification goes through the reversibility gate. -/
def writeRowAndNotify (cfg : NotifCfg) (s : AMState) (writes : List String) (row : String)
    (block : ShipBlock) (tx : Option String) (topic name : String) (data : Nat) :
    AMState × List String × List NotifMsg :=
  let writes2 := writes ++ [row]
  let r := pushNotificiation cfg s block tx topic name data
  (r.1, writes2, r.2)

/-- C2.  When the handler is not reversible, pushNotificiation publishes
nothing and stages nothing: the handler state (in particular the pending
notification job list) is unchanged, while a database write performed by
the same handler still goes through; and the reversible flag consulted by
the gate is recomputed in onBlockComplete as
db.currentBlock > db.lastIrreversibleBlock, hence false whenever
db.currentBlock ≤ db.lastIrreversibleBlock. -/
theorem pushNotificiation_reversibility_gate (cfg : NotifCfg) (s : AMState) (block : ShipBlock)
    (tx : Option String) (topic name : String) (data : Nat) (writes : List String) (row : String)
    (db : DBTx) (hrev : s.reversible = false) :
    pushNotificiation cfg s block tx topic name data = (s, []) ∧
    (pushNotificiation cfg s block tx topic name data).1.notificationJobs = s.notificationJobs ∧
    (pushNotificiation cfg s block tx topic name data).1.notifPending = s.notifPending ∧
    writeRowAndNotify cfg s writes row block tx topic name data = (s, writes ++ [row], []) ∧
    (onBlockComplete s db).1.reversible = decide (db.currentBlock > db.lastIrreversibleBlock) ∧
    (db.currentBlock ≤ db.lastIrreversibleBlock → (onBlockComplete s db).1.reversible = false) := by
  have hpush : pushNotificiation cfg s block tx topic name data = (s, []) := by
    simp [pushNotificiation, hrev]
  refine ⟨hpush, by rw [hpush], by rw [hpush], ?_, rfl, ?_⟩
  · show (_, writes ++ [row], (pushNotificiation cfg s block tx topic name data).2) = _
    rw [hpush]
  · intro hle
    show decide (db.currentBlock > db.lastIrreversibleBlock) = false
    simpa using hle

/-- C3.  All jobs enqueued with addUpdateJob during one block run when
onBlockComplete drains the queue: serially (the queue has concurrency 1),
in non-increasing order of priority, FIFO among equal priorities; the drain
is a permutation of the enqueued jobs (every job completes before
onBlockComplete returns), and afterwards the queue is paused and the job
list is empty. -/
theorem addUpdateJob_onBlockComplete_drain (s0 : AMState) (js : List UpdateJob) (db : DBTx)
    (hp : s0.updatePaused = true) (hpend : s0.updatePending = []) (_hjobs : s0.updateJobs = [])
    (hseq : js.Pairwise (fun a b => a.seq < b.seq)) :
    amQueueConcurrency = 1 ∧
    (onBlockComplete (enqueueJobs s0 js) db).2 = drainOrder js ∧
    ((onBlockComplete (enqueueJobs s0 js) db).2).Perm js ∧
    ((onBlockComplete (enqueueJobs s0 js) db).2).Pairwise (fun a b => b.priority ≤ a.priority) ∧
    ((onBlockComplete (enqueueJobs s0 js) db).2).Pairwise
      (fun a b => a.priority = b.priority → a.seq < b.seq) ∧
    (onBlockComplete (enqueueJobs s0 js) db).1.updatePaused = true ∧
    (onBlockComplete (enqueueJobs s0 js) db).1.updateJobs = [] ∧
    (onBlockComplete (enqueueJobs s0 js) db).1.updatePending = [] := by
  rcases enqueueJobs_fields js s0 hp with ⟨_, h2, _⟩
  have hdr : (onBlockComplete (enqueueJobs s0 js) db).2 = drainOrder js := by
    show (enqueueJobs s0 js).updatePending = drainOrder js
    rw [h2, hpend]
    rfl
  refine ⟨rfl, hdr, ?_, ?_, ?_, rfl, rfl, rfl⟩
  · rw [hdr]; exact drainOrder_perm js
  · rw [hdr]; exact drainOrder_sorted js
  · rw [hdr]
    refine (drainOrder_pairwise js hseq).imp ?_
    intro a b hab heq
    rcases hab with hlt | ⟨_, hs⟩
    · rw [heq] at hlt
      exact absurd hlt (Nat.lt_irrefl _)
    · exact hs

/-- C6.  Every message staged by pushNotificiation goes to the channel whose
name is the colon join of eosio-contract-api, the chain name, the reader
name, the handler name atomicmarket, the configured atomicmarket account
and the topic, and its payload consists of exactly the fields transaction,
block (with block_num and block_id of the current block), action and data. -/
theorem pushNotificiation_channel_payload (cfg : NotifCfg) (s : AMState) (block : ShipBlock)
    (tx : Option String) (topic name : String) (data : Nat)
    (hrev : s.reversible = true) (hp : s.notifPaused = true) :
    (pushNotificiation cfg s block tx topic name data).1.notificationJobs
      = s.notificationJobs ++ [mkNotifMsg cfg block tx topic name data] ∧
    (pushNotificiation cfg s block tx topic name data).1.notifPending
      = s.notifPending ++ [mkNotifMsg cfg block tx topic name data] ∧
    (mkNotifMsg cfg block tx topic name data).channel
      = "eosio-contract-api" ++ ":" ++ cfg.chainName ++ ":" ++ cfg.readerName ++ ":"
        ++ "atomicmarket" ++ ":" ++ cfg.marketAccount ++ ":" ++ topic ∧
    (mkNotifMsg cfg block tx topic name data).payload.transaction = tx ∧
    (mkNotifMsg cfg block tx topic name data).payload.block_num = block.block_num ∧
    (mkNotifMsg cfg block tx topic name data).payload.block_id = block.block_id ∧
    (mkNotifMsg cfg block tx topic name data).payload.action = name ∧
    (mkNotifMsg cfg block tx topic name data).payload.data = data := by
  refine ⟨?_, ?_, rfl, rfl, rfl, rfl, rfl, rfl⟩ <;> simp [pushNotificiation, hrev, hp]

/-- C7.  The persisted market state encodings and the job priority
constants have the numeric values of the spec; every storable auction state
is at most CANCELED = 2 (SOLD and INVALID are only derived); and because
ACTION_UPDATE_SALE = 50 is less than TABLE_SALES = 70, any job drained at a
position holding priority ACTION_UPDATE_SALE comes strictly after every
position holding priority TABLE_SALES within the same block. -/
theorem market_constants_and_priority_drain (js : List UpdateJob) (i j : Nat)
    (hi : i < (drainOrder js).length) (hj : j < (drainOrder js).length)
    (h50 : ((drainOrder js).get ⟨i, hi⟩).priority = JobPriority.ACTION_UPDATE_SALE.val)
    (h70 : ((drainOrder js).get ⟨j, hj⟩).priority = JobPriority.TABLE_SALES.val) :
    SaleState.WAITING.val = 0 ∧ SaleState.LISTED.val = 1 ∧ SaleState.CANCELED.val = 2 ∧
    SaleState.SOLD.val = 3 ∧
    AuctionState.WAITING.val = 0 ∧ AuctionState.LISTED.val = 1 ∧ AuctionState.CANCELED.val = 2 ∧
    (∀ a : AuctionState, a.val ≤ 2) ∧
    JobPriority.ACTION_UPDATE_SALE.val < JobPriority.TABLE_SALES.val ∧
    j < i := by
  refine ⟨rfl, rfl, rfl, rfl, rfl, rfl, rfl, ?_, by decide, ?_⟩
  · intro a
    cases a <;> decide
  · have hsorted := drainOrder_sorted js
    rw [List.pairwise_iff_get] at hsorted
    rcases Nat.lt_trichotomy i j with hij | hij | hij
    · have := hsorted ⟨i, hi⟩ ⟨j, hj⟩ hij
      rw [h50, h70] at this
      exact absurd this (by decide)
    · subst hij
      rw [h50] at h70
      exact absurd h70 (by decide)
    · exact hij

/-- A concrete connection configuration used by the witnesses. -/
def cfg0 : NotifCfg := ⟨"wax", "atomic-1", "atomicmarket"⟩

/-- A concrete block used by the witnesses. -/
def blk0 : ShipBlock := ⟨100, "000064ff"⟩

/-- A handler state as left by a previous block whose onBlockComplete saw a
reversible block: queues paused and empty, reversible flag set. -/
def st0 : AMState := {amInitialState with reversible := true}

/-- Concrete events of one block: one notification push and one update job. -/
def evs0 : List BlockEv := [BlockEv.push blk0 (some "tx1") "sales" "state_change" 7, BlockEv.job ⟨0, 70⟩]

/-- A transaction whose current block is past the irreversible height. -/
def db0 : DBTx := ⟨100, 99⟩

/-- A transaction whose current block is not past the irreversible height. -/
def db1 : DBTx := ⟨99, 100⟩

theorem processBlock_publishes_only_after_commit_witness :
    (processBlock cfg0 st0 evs0 db0).publishedBeforeCommit = [] ∧
    (processBlock cfg0 st0 evs0 db0).publishedAfterCommit =
      (if st0.reversible then evs0.filterMap (pushMsgOf cfg0) else []) ∧
    (processBlock cfg0 st0 evs0 db0).finalState.notificationJobs = [] ∧
    (processBlock cfg0 st0 evs0 db0).finalState.notifPending = [] ∧
    (processBlock cfg0 st0 evs0 db0).finalState.notifPaused = true :=
  processBlock_publishes_only_after_commit cfg0 st0 evs0 db0 rfl rfl

theorem pushNotificiation_reversibility_gate_witness :
    pushNotificiation cfg0 amInitialState blk0 (some "tx1") "sales" "state_change" 7
      = (amInitialState, []) ∧
    (pushNotificiation cfg0 amInitialState blk0 (some "tx1") "sales" "state_change" 7).1.notificationJobs
      = amInitialState.notificationJobs ∧
    (pushNotificiation cfg0 amInitialState blk0 (some "tx1") "sales" "state_change" 7).1.notifPending
      = amInitialState.notifPending ∧
    writeRowAndNotify cfg0 amInitialState [] "sale-row-5" blk0 (some "tx1") "sales" "state_change" 7
      = (amInitialState, [] ++ ["sale-row-5"], []) ∧
    (onBlockComplete amInitialState db1).1.reversible
      = decide (db1.currentBlock > db1.lastIrreversibleBlock) ∧
    (onBlockComplete amInitialState db1).1.reversible = false :=
  (fun h => ⟨h.1, h.2.1, h.2.2.1, h.2.2.2.1, h.2.2.2.2.1, h.2.2.2.2.2 (by decide)⟩)
    (pushNotificiation_reversibility_gate cfg0 amInitialState blk0 (some "tx1") "sales"
      "state_change" 7 [] "sale-row-5" db1 rfl)

/-- Concrete jobs for the drain witness: a low-priority job enqueued first,
then two equal-priority jobs. -/
def js0 : List UpdateJob := [⟨0, 50⟩, ⟨1, 70⟩, ⟨2, 70⟩]

theorem addUpdateJob_onBlockComplete_drain_witness :
    amQueueConcurrency = 1 ∧
    (onBlockComplete (enqueueJobs amInitialState js0) db0).2 = drainOrder js0 ∧
    ((onBlockComplete (enqueueJobs amInitialState js0) db0).2).Perm js0 ∧
    ((onBlockComplete (enqueueJobs amInitialState js0) db0).2).Pairwise
      (fun a b => b.priority ≤ a.priority) ∧
    ((onBlockComplete (enqueueJobs amInitialState js0) db0).2).Pairwise
      (fun a b => a.priority = b.priority → a.seq < b.seq) ∧
    (onBlockComplete (enqueueJobs amInitialState js0) db0).1.updatePaused = true ∧
    (onBlockComplete (enqueueJobs amInitialState js0) db0).1.updateJobs = [] ∧
    (onBlockComplete (enqueueJobs amInitialState js0) db0).1.updatePending = [] :=
  addUpdateJob_onBlockComplete_drain amInitialState js0 db0 rfl rfl rfl (by decide)

theorem pushNotificiation_channel_payload_witness :
    (pushNotificiation cfg0 st0 blk0 (some "tx1") "sales" "state_change" 7).1.notificationJobs
      = st0.notificationJobs ++ [mkNotifMsg cfg0 blk0 (some "tx1") "sales" "state_change" 7] ∧
    (pushNotificiation cfg0 st0 blk0 (some "tx1") "sales" "state_change" 7).1.notifPending
      = st0.notifPending ++ [mkNotifMsg cfg0 blk0 (some "tx1") "sales" "state_change" 7] ∧
    (mkNotifMsg cfg0 blk0 (some "tx1") "sales" "state_change" 7).channel
      = "eosio-contract-api" ++ ":" ++ cfg0.chainName ++ ":" ++ cfg0.readerName ++ ":"
        ++ "atomicmarket" ++ ":" ++ cfg0.marketAccount ++ ":" ++ "sales" ∧
    (mkNotifMsg cfg0 blk0 (some "tx1") "sales" "state_change" 7).payload.transaction = some "tx1" ∧
    (mkNotifMsg cfg0 blk0 (some "tx1") "sales" "state_change" 7).payload.block_num = blk0.block_num ∧
    (mkNotifMsg cfg0 blk0 (some "tx1") "sales" "state_change" 7).payload.block_id = blk0.block_id ∧
    (mkNotifMsg cfg0 blk0 (some "tx1") "sales" "state_change" 7).payload.action = "state_change" ∧
    (mkNotifMsg cfg0 blk0 (some "tx1") "sales" "state_change" 7).payload.data = 7 :=
  pushNotificiation_channel_payload cfg0 st0 blk0 (some "tx1") "sales" "state_change" 7 rfl rfl

/-- Concrete jobs for the priority witness: an ACTION_UPDATE_SALE priority
job enqueued before a TABLE_SALES priority job. -/
def js1 : List UpdateJob := [⟨0, 50⟩, ⟨1, 70⟩]

theorem market_constants_and_priority_drain_witness :
    SaleState.WAITING.val = 0 ∧ SaleState.LISTED.val = 1 ∧ SaleState.CANCELED.val = 2 ∧
    SaleState.SOLD.val = 3 ∧
    AuctionState.WAITING.val = 0 ∧ AuctionState.LISTED.val = 1 ∧ AuctionState.CANCELED.val = 2 ∧
    (∀ a : AuctionState, a.val ≤ 2) ∧
    JobPriority.ACTION_UPDATE_SALE.val < JobPriority.TABLE_SALES.val ∧
    0 < 1 :=
  market_constants_and_priority_drain js1 1 0 (by decide) (by decide) (by decide) (by decide)

/-- Value of one hexadecimal digit, as Buffer.from(text, hex) accepts. -/
def hexDigitVal? (c : Char) : Option Nat :=
  if 48 ≤ c.toNat ∧ c.toNat ≤ 57 then some (c.toNat - 48)
  else if 97 ≤ c.toNat ∧ c.toNat ≤ 102 then some (c.toNat - 97 + 10)
  else if 65 ≤ c.toNat ∧ c.toNat ≤ 70 then some (c.toNat - 65 + 10)
  else none

/-- Buffer.from(text, hex): consume the characters two at a time, stopping
(and truncating) at the first character pair that is not two hex digits or
at a trailing odd character. -/
def hexPairs : List Char → List Nat
  | c1 :: c2 :: rest =>
    match hexDigitVal? c1, hexDigitVal? c2 with
    | some hi, some lo => (16 * hi + lo) :: hexPairs rest
    | _, _ => []
  | _ => []

/-- The data argument of the worker deserialize function: a byte array
(Uint8Array) or a hex string. -/
inductive DsInput where
  | bin (bytes : List Nat)
  | hex (text : String)
  deriving DecidableEq, Repr

/-- The byte array handed to the SerialBuffer: the bytes themselves, or the
hex string decoded by Buffer.from(text, hex). -/
def DsInput.toBytes : DsInput → List Nat
  | .bin bytes => bytes
  | .hex text => hexPairs text.data

/-- data.length as evaluated by the source on the original argument: the
byte count for a byte array, the character count for a hex string. -/
def DsInput.rawLength : DsInput → Nat
  | .bin bytes => bytes.length
  | .hex text => text.length

/-- An eosjs type deserializer viewed abstractly: reads the byte array from
position zero and returns the decoded value together with the buffer read
position afterwards, or none when the library itself throws. -/
def TypeDecoder (α : Type) : Type := List Nat → Option (α × Nat)

/-- The portable (eosjs) backend of the worker deserialize function: decode
the byte array, then throw a deserialization error unless the read
position equals data.length of the original argument. -/
def deserialize {α : Type} (typeName : String) (dec : TypeDecoder α) (input : DsInput) :
    Except String α :=
  match dec input.toBytes with
  | none => Except.error ("Deserialization failed: " ++ typeName)
  | some (v, readPos) =>
    if readPos ≠ input.rawLength then Except.error ("Deserialization error: " ++ typeName)
    else Except.ok v

/-- The uint8 deserializer of eosjs: reads exactly one byte. -/
def uint8Decoder : TypeDecoder Nat := fun bytes =>
  match bytes with
  | b :: _ => some (b, 1)
  | [] => none

theorem deserialize_ok_iff {α : Type} (typeName : String) (dec : TypeDecoder α)
    (input : DsInput) (v : α) :
    deserialize typeName dec input = Except.ok v ↔
      dec input.toBytes = some (v, input.rawLength) := by
  unfold deserialize
  cases hdec : dec input.toBytes with
  | none => simp
  | some pr =>
    obtain ⟨w, r⟩ := pr
    by_cases hr : r = input.rawLength
    · subst hr
      simp
    · simp [hr]

/-- C4 counterexample.  Decoding the two character hex input 05 as uint8
consumes the entire single byte of the input, yet the backend raises the
decode error, because it compares the read position 1 with the character
count 2 of the original string. -/
theorem deserialize_hex_full_consumption_error :
    (DsInput.hex "05").toBytes = [5] ∧
    uint8Decoder (DsInput.hex "05").toBytes = some (5, 1) ∧
    ((DsInput.hex "05").toBytes).length = 1 ∧
    deserialize "uint8" uint8Decoder (DsInput.hex "05")
      = Except.error ("Deserialization error: " ++ "uint8") := by
  refine ⟨by decide, by decide, by decide, ?_⟩
  rfl

/-- C4 amended.  The backend returns a value exactly when the decode
succeeded with read position equal to data.length of the original argument.
For byte-array inputs this is the number of bytes of the input, so the
backend errors exactly when the consumed byte count differs from the input
byte count, and a returned value means the entire input was consumed.  For
hex-string inputs the comparison is against the character count of the
string instead of its byte count. -/
theorem deserialize_consumption_contract {α : Type} (typeName : String) (dec : TypeDecoder α)
    (input : DsInput) (v : α) :
    (deserialize typeName dec input = Except.ok v ↔
      dec input.toBytes = some (v, input.rawLength)) ∧
    (∀ bytes, input = DsInput.bin bytes →
      (deserialize typeName dec input = Except.ok v ↔ dec bytes = some (v, bytes.length))) ∧
    (∀ text, input = DsInput.hex text → deserialize typeName dec input = Except.ok v →
      dec (hexPairs text.data) = some (v, text.length)) := by
  refine ⟨deserialize_ok_iff typeName dec input v, ?_, ?_⟩
  · intro bytes hin
    subst hin
    exact deserialize_ok_iff typeName dec _ v
  · intro text hin hok
    subst hin
    exact (deserialize_ok_iff typeName dec _ v).mp hok

theorem deserialize_consumption_contract_witness :
    deserialize "uint8" uint8Decoder (DsInput.bin [5]) = Except.ok 5 ↔
      uint8Decoder [5] = some (5, 1) :=
  (deserialize_consumption_contract "uint8" uint8Decoder (DsInput.bin [5]) 5).1

/-- One row of a table delta before the inner decode: the undecoded data
bytes plus the remaining row fields (spread through by the source). -/
structure DeltaRowRaw where
  present : Bool
  data : List Nat
  deriving DecidableEq, Repr

/-- The body of one table_delta_v0 variant: the table type name and rows. -/
structure DeltaBody where
  name : String
  rows : List DeltaRowRaw
  deriving DecidableEq, Repr

/-- One element of the decoded table_delta array: the variant is the pair
of its tag string and its body. -/
structure TableDeltaVariant where
  tag : String
  body : DeltaBody
  deriving DecidableEq, Repr

/-- One row after the inner decode replaced its data field. -/
structure DeltaRowDecoded (Val : Type) where
  present : Bool
  data : Val
  deriving DecidableEq, Repr

/-- One delta after the worker processed it. -/
structure DecodedDelta (Val : Type) where
  tag : String
  name : String
  rows : List (DeltaRowDecoded Val)
  deriving DecidableEq, Repr

/-- The rows.map of the worker: decode each row data field against the
table type named by the enclosing delta; the first decode failure
propagates. -/
def decodeRows {Val : Type} (ds : String → List Nat → Except String Val) (name : String) :
    List DeltaRowRaw → Except String (List (DeltaRowDecoded Val))
  | [] => Except.ok []
  | r :: rest =>
    match ds name r.data with
    | Except.error e => Except.error e
    | Except.ok v =>
      match decodeRows ds name rest with
      | Except.error e => Except.error e
      | Except.ok out => Except.ok (⟨r.present, v⟩ :: out)

/-- The worker loop over a decoded table_delta array: a table_delta_v0
variant has its rows decoded in place; any other variant tag throws the
unsupported-delta error. -/
def processTableDeltas {Val : Type} (ds : String → List Nat → Except String Val) :
    List TableDeltaVariant → Except String (List (DecodedDelta Val))
  | [] => Except.ok []
  | d :: rest =>
    if d.tag = "table_delta_v0" then
      match decodeRows ds d.body.name d.body.rows with
      | Except.error e => Except.error e
      | Except.ok rows =>
        match processTableDeltas ds rest with
        | Except.error e => Except.error e
        | Except.ok out => Except.ok (⟨d.tag, d.body.name, rows⟩ :: out)
    else Except.error ("Unsupported table delta type received " ++ d.tag)

/-- Whether an Except carries a value. -/
def exceptOk {ε α : Type} : Except ε α → Bool
  | Except.ok _ => true
  | Except.error _ => false

theorem decodeRows_ok {Val : Type} (ds : String → List Nat → Except String Val) (name : String) :
    ∀ (rows : List DeltaRowRaw) (out : List (DeltaRowDecoded Val)),
      decodeRows ds name rows = Except.ok out →
      out.length = rows.length ∧
      ∀ k (hk : k < rows.length) (hk2 : k < out.length),
        (out.get ⟨k, hk2⟩).present = (rows.get ⟨k, hk⟩).present ∧
        ds name ((rows.get ⟨k, hk⟩).data) = Except.ok ((out.get ⟨k, hk2⟩).data) := by
  intro rows
  induction rows with
  | nil =>
    intro out hout
    simp [decodeRows] at hout
    subst hout
    exact ⟨rfl, fun k hk => absurd hk (Nat.not_lt_zero k)⟩
  | cons r rest ih =>
    intro out hout
    simp only [decodeRows] at hout
    cases hd : ds name r.data with
    | error e =>
      rw [hd] at hout
      exact absurd hout (by simp)
    | ok v =>
      rw [hd] at hout
      cases htl : decodeRows ds name rest with
      | error e =>
        rw [htl] at hout
        exact absurd hout (by simp)
      | ok tlout =>
        rw [htl] at hout
        have hout2 : (⟨r.present, v⟩ : DeltaRowDecoded Val) :: tlout = out := by
          simpa using hout
        subst hout2
        rcases ih tlout htl with ⟨hlen, hidx⟩
        refine ⟨by simpa using hlen, ?_⟩
        intro k hk hk2
        cases k with
        | zero => exact ⟨rfl, hd.symm ▸ rfl⟩
        | succ k2 =>
          exact hidx k2 (Nat.lt_of_succ_lt_succ hk) (Nat.lt_of_succ_lt_succ hk2)

theorem processTableDeltas_unsupported {Val : Type} (ds : String → List Nat → Except String Val) :
    ∀ (pre : List TableDeltaVariant) (d : TableDeltaVariant) (rest : List TableDeltaVariant),
      d.tag ≠ "table_delta_v0" →
      (∀ p ∈ pre, p.tag = "table_delta_v0" ∧
        exceptOk (decodeRows ds p.body.name p.body.rows) = true) →
      processTableDeltas ds (pre ++ d :: rest)
        = Except.error ("Unsupported table delta type received " ++ d.tag) := by
  intro pre
  induction pre with
  | nil =>
    intro d rest htag _
    simp only [List.nil_append, processTableDeltas, if_neg htag]
  | cons p pre2 ih =>
    intro d rest htag hpre
    rcases hpre p (List.mem_cons_self p pre2) with ⟨hptag, hpok⟩
    have hrec := ih d rest htag (fun q hq => hpre q (List.mem_cons_of_mem p hq))
    show processTableDeltas ds (p :: (pre2 ++ d :: rest)) = _
    simp only [processTableDeltas, if_pos hptag]
    cases hrows : decodeRows ds p.body.name p.body.rows with
    | error e =>
      rw [hrows] at hpok
      exact absurd hpok (by simp [exceptOk])
    | ok rows =>
      rw [hrec]

theorem processTableDeltas_ok {Val : Type} (ds : String → List Nat → Except String Val) :
    ∀ (deltas : List TableDeltaVariant) (out : List (DecodedDelta Val)),
      processTableDeltas ds deltas = Except.ok out →
      out.length = deltas.length ∧
      ∀ i (hi : i < deltas.length) (ho : i < out.length),
        (deltas.get ⟨i, hi⟩).tag = "table_delta_v0" ∧
        (out.get ⟨i, ho⟩).tag = (deltas.get ⟨i, hi⟩).tag ∧
        (out.get ⟨i, ho⟩).name = (deltas.get ⟨i, hi⟩).body.name ∧
        decodeRows ds ((deltas.get ⟨i, hi⟩).body.name) ((deltas.get ⟨i, hi⟩).body.rows)
          = Except.ok ((out.get ⟨i, ho⟩).rows) := by
  intro deltas
  induction deltas with
  | nil =>
    intro out hout
    simp [processTableDeltas] at hout
    subst hout
    exact ⟨rfl, fun i hi => absurd hi (Nat.not_lt_zero i)⟩
  | cons d rest ih =>
    intro out hout
    simp only [processTableDeltas] at hout
    by_cases htag : d.tag = "table_delta_v0"
    · rw [if_pos htag] at hout
      cases hrows : decodeRows ds d.body.name d.body.rows with
      | error e =>
        rw [hrows] at hout
        exact absurd hout (by simp)
      | ok rows =>
        rw [hrows] at hout
        cases htl : processTableDeltas ds rest with
        | error e =>
          rw [htl] at hout
          exact absurd hout (by simp)
        | ok tlout =>
          rw [htl] at hout
          have hout2 : (⟨d.tag, d.body.name, rows⟩ : DecodedDelta Val) :: tlout = out := by
            simpa using hout
          subst hout2
          rcases ih tlout htl with ⟨hlen, hidx⟩
          refine ⟨by simpa using hlen, ?_⟩
          intro i hi ho
          cases i with
          | zero => exact ⟨htag, rfl, rfl, hrows⟩
          | succ i2 =>
            exact hidx i2 (Nat.lt_of_succ_lt_succ hi) (Nat.lt_of_succ_lt_succ ho)
    · rw [if_neg htag] at hout
      exact absurd hout (by simp)

/-- C5.  When the worker decodes table_delta array data: whenever a result
is returned, every delta had the variant tag table_delta_v0 and each of its
rows had its data field replaced by the value obtained by decoding the raw
bytes against the table type named by the enclosing delta; when the first
delta violating the tag check is reached (all earlier deltas being
well-tagged with decodable rows) the worker throws the unsupported-delta
error; and the presence of any delta with a different tag means no result
is returned at all. -/
theorem processTableDeltas_rows_and_unsupported {Val : Type}
    (ds : String → List Nat → Except String Val) (deltas : List TableDeltaVariant) :
    (∀ out, processTableDeltas ds deltas = Except.ok out →
      out.length = deltas.length ∧
      ∀ i (hi : i < deltas.length) (ho : i < out.length),
        (deltas.get ⟨i, hi⟩).tag = "table_delta_v0" ∧
        (out.get ⟨i, ho⟩).tag = (deltas.get ⟨i, hi⟩).tag ∧
        (out.get ⟨i, ho⟩).name = (deltas.get ⟨i, hi⟩).body.name ∧
        (out.get ⟨i, ho⟩).rows.length = (deltas.get ⟨i, hi⟩).body.rows.length ∧
        ∀ k (hk : k < (deltas.get ⟨i, hi⟩).body.rows.length)
            (hk2 : k < (out.get ⟨i, ho⟩).rows.length),
          ((out.get ⟨i, ho⟩).rows.get ⟨k, hk2⟩).present
            = (((deltas.get ⟨i, hi⟩).body.rows).get ⟨k, hk⟩).present ∧
          ds ((deltas.get ⟨i, hi⟩).body.name)
              ((((deltas.get ⟨i, hi⟩).body.rows).get ⟨k, hk⟩).data)
            = Except.ok (((out.get ⟨i, ho⟩).rows.get ⟨k, hk2⟩).data)) ∧
    (∀ pre d rest, deltas = pre ++ d :: rest → d.tag ≠ "table_delta_v0" →
      (∀ p, p ∈ pre → p.tag = "table_delta_v0" ∧
        exceptOk (decodeRows ds p.body.name p.body.rows) = true) →
      processTableDeltas ds deltas
        = Except.error ("Unsupported table delta type received " ++ d.tag)) ∧
    (∀ d, d ∈ deltas → d.tag ≠ "table_delta_v0" →
      ∀ out, processTableDeltas ds deltas ≠ Except.ok out) := by
  have hmain := processTableDeltas_ok ds deltas
  refine ⟨?_, ?_, ?_⟩
  · intro out hout
    rcases hmain out hout with ⟨hlen, hidx⟩
    refine ⟨hlen, ?_⟩
    intro i hi ho
    rcases hidx i hi ho with ⟨h1, h2, h3, h4⟩
    rcases decodeRows_ok ds _ _ _ h4 with ⟨hrl, hrows⟩
    refine ⟨h1, h2, h3, hrl, ?_⟩
    intro k hk hk2
    exact hrows k hk hk2
  · intro pre d rest hd htag hpre
    subst hd
    exact processTableDeltas_unsupported ds pre d rest htag hpre
  · intro d hd htag out hout
    rcases hmain out hout with ⟨hlen, hidx⟩
    rcases List.mem_iff_get.mp hd with ⟨⟨i, hi⟩, hget⟩
    have hg := (hidx i hi (by omega)).1
    rw [hget] at hg
    exact htag hg

/-- A trivial inner decoder used by the witness: decodes any row to its
byte count. -/
def dsLen : String → List Nat → Except String Nat := fun _ bytes => Except.ok bytes.length

/-- A delta whose variant tag is not table_delta_v0. -/
def deltaBad : TableDeltaVariant := ⟨"table_delta_v1", ⟨"sales", []⟩⟩

theorem processTableDeltas_rows_and_unsupported_witness :
    processTableDeltas dsLen [deltaBad]
      = Except.error ("Unsupported table delta type received " ++ "table_delta_v1") :=
  (processTableDeltas_rows_and_unsupported dsLen [deltaBad]).2.1 [] deltaBad [] rfl
    (by decide) (fun p hp => absurd hp (List.not_mem_nil p))

/-- One row of the atomicmarket_sales table, restricted to the columns the
stats view reads. -/
structure SaleRow where
  market_contract : String
  sale_id : Nat
  maker_marketplace : String
  taker_marketplace : Option String
  assets_contract : String
  collection_name : String
  settlement_symbol : String
  final_price : Option Nat
  state : Nat
  updated_at_time : Nat
  deriving DecidableEq, Repr

/-- One row of the atomicmarket_auctions table, restricted to the columns
the stats view reads. -/
structure AuctionRow where
  market_contract : String
  auction_id : Nat
  maker_marketplace : String
  taker_marketplace : Option String
  assets_contract : String
  collection_name : String
  token_symbol : String
  price : Nat
  end_time : Nat
  buyer : Option String
  state : Nat
  deriving DecidableEq, Repr

/-- One row of the atomicmarket_buyoffers table, restricted to the columns
the stats view reads. -/
structure BuyofferRow where
  market_contract : String
  buyoffer_id : Nat
  maker_marketplace : String
  taker_marketplace : Option String
  assets_contract : String
  collection_name : String
  token_symbol : String
  price : Nat
  state : Nat
  updated_at_time : Nat
  deriving DecidableEq, Repr

/-- One row of the atomicmarket_stats_markets_master view. -/
structure StatsRow where
  market_contract : String
  listing_type : String
  listing_id : Nat
  maker_marketplace : String
  taker_marketplace : Option String
  assets_contract : String
  collection_name : String
  token_symbol : String
  price : Nat
  time : Nat
  deriving DecidableEq, Repr

/-- The WHERE clause of the sale branch of the view. -/
def saleSoldFilter (s : SaleRow) : Bool :=
  s.final_price.isSome && s.state == 3

/-- The WHERE clause of the auction branch of the view: a listed auction
whose end time has passed while a buyer stands. -/
def auctionSoldFilter (now : Nat) (a : AuctionRow) : Bool :=
  a.buyer.isSome && a.state == 1 && decide (a.end_time < now)

/-- The WHERE clause of the buyoffer branch of the view. -/
def buyofferSoldFilter (b : BuyofferRow) : Bool :=
  b.state == 3

/-- The SELECT list of the sale branch. -/
def saleStatsRow (s : SaleRow) : StatsRow :=
  ⟨s.market_contract, "sale", s.sale_id, s.maker_marketplace, s.taker_marketplace,
   s.assets_contract, s.collection_name, s.settlement_symbol, s.final_price.getD 0,
   s.updated_at_time⟩

/-- The SELECT list of the auction branch; the time column is
end_time * 1000. -/
def auctionStatsRow (a : AuctionRow) : StatsRow :=
  ⟨a.market_contract, "auction", a.auction_id, a.maker_marketplace, a.taker_marketplace,
   a.assets_contract, a.collection_name, a.token_symbol, a.price, a.end_time * 1000⟩

/-- The SELECT list of the buyoffer branch. -/
def buyofferStatsRow (b : BuyofferRow) : StatsRow :=
  ⟨b.market_contract, "buyoffer", b.buyoffer_id, b.maker_marketplace, b.taker_marketplace,
   b.assets_contract, b.collection_name, b.token_symbol, b.price, b.updated_at_time⟩

/-- The atomicmarket_stats_markets_master view: the UNION ALL of the sale,
auction and buyoffer branches, with now the current epoch in seconds. -/
def statsMarketsMaster (now : Nat) (sales : List SaleRow) (auctions : List AuctionRow)
    (buyoffers : List BuyofferRow) : List StatsRow :=
  (sales.filter saleSoldFilter).map saleStatsRow
    ++ (auctions.filter (auctionSoldFilter now)).map auctionStatsRow
    ++ (buyoffers.filter buyofferSoldFilter).map buyofferStatsRow

/-- C8.  A LISTED auction (state 1) with a non-null buyer whose end_time
lies before the current time contributes its row to the stats view, typed
as listing_type auction, with no stored SOLD transition involved; an
auction failing any of the three conditions passes no filter and so
contributes nothing; and every auction-typed row of the view arises from
exactly such an auction. -/
theorem statsMarketsMaster_counts_expired_auctions (now : Nat) (sales : List SaleRow)
    (auctions : List AuctionRow) (buyoffers : List BuyofferRow) (a : AuctionRow)
    (ha : a ∈ auctions) :
    ((a.state = 1 ∧ a.buyer.isSome = true ∧ a.end_time < now) →
      auctionStatsRow a ∈ statsMarketsMaster now sales auctions buyoffers ∧
      (auctionStatsRow a).listing_type = "auction") ∧
    (¬ (a.state = 1 ∧ a.buyer.isSome = true ∧ a.end_time < now) →
      a ∉ auctions.filter (auctionSoldFilter now)) ∧
    (∀ r, r ∈ statsMarketsMaster now sales auctions buyoffers → r.listing_type = "auction" →
      ∃ b, b ∈ auctions ∧ b.state = 1 ∧ b.buyer.isSome = true ∧ b.end_time < now ∧
        r = auctionStatsRow b) := by
  refine ⟨?_, ?_, ?_⟩
  · rintro ⟨h1, h2, h3⟩
    refine ⟨?_, rfl⟩
    have hf : a ∈ auctions.filter (auctionSoldFilter now) := by
      rw [List.mem_filter]
      exact ⟨ha, by simp [auctionSoldFilter, h1, h2, h3]⟩
    have hm : auctionStatsRow a ∈ (auctions.filter (auctionSoldFilter now)).map auctionStatsRow :=
      List.mem_map_of_mem auctionStatsRow hf
    unfold statsMarketsMaster
    exact List.mem_append.mpr (Or.inl (List.mem_append.mpr (Or.inr hm)))
  · intro hnot hmem
    rcases List.mem_filter.mp hmem with ⟨_, hcond⟩
    refine hnot ?_
    simp [auctionSoldFilter] at hcond
    exact ⟨hcond.1.2, hcond.1.1, hcond.2⟩
  · intro r hr htype
    unfold statsMarketsMaster at hr
    rcases List.mem_append.mp hr with hr1 | hr3
    · rcases List.mem_append.mp hr1 with hrs | hra
      · rcases List.mem_map.mp hrs with ⟨s, _, hsr⟩
        rw [← hsr] at htype
        exact absurd htype (by simp [saleStatsRow])
      · rcases List.mem_map.mp hra with ⟨b, hbmem, hbr⟩
        rcases List.mem_filter.mp hbmem with ⟨hbin, hbcond⟩
        simp [auctionSoldFilter] at hbcond
        exact ⟨b, hbin, hbcond.1.2, hbcond.1.1, hbcond.2, hbr.symm⟩
    · rcases List.mem_map.mp hr3 with ⟨b, _, hbr⟩
      rw [← hbr] at htype
      exact absurd htype (by simp [buyofferStatsRow])

/-- A listed auction with a buyer whose end time has passed. -/
def auc0 : AuctionRow :=
  ⟨"atomicmarket", 9, "mkplace", none, "atomicassets", "testcoll", "8,WAX", 1000, 500, some "bob", 1⟩

theorem statsMarketsMaster_counts_expired_auctions_witness :
    auctionStatsRow auc0 ∈ statsMarketsMaster 600 [] [auc0] [] ∧
    (auctionStatsRow auc0).listing_type = "auction" :=
  (statsMarketsMaster_counts_expired_auctions 600 [] [auc0] [] auc0
      (List.mem_cons_self auc0 [])).1 ⟨rfl, rfl, by decide⟩

/-- The response of one HTTP endpoint handler: status code, success flag
and error message (none on success). -/
structure ApiResponse where
  status : Nat
  success : Bool
  message : Option String
  deriving DecidableEq, Repr

/-- GET /v1/sales/:sale_id as a function of the row count the database
query returned for the requested id. -/
def getSaleByIdResponse (rowCount : Nat) : ApiResponse :=
  if rowCount = 0 then ⟨416, false, some "Sale not found"⟩ else ⟨200, true, none⟩

/-- GET /v1/auctions/:auction_id as a function of the returned row count. -/
def getAuctionByIdResponse (rowCount : Nat) : ApiResponse :=
  if rowCount = 0 then ⟨500, false, some "Auction not found"⟩ else ⟨200, true, none⟩

/-- GET /v1/collections/:collection_name as a function of the returned row
count. -/
def getCollectionByNameResponse (rowCount : Nat) : ApiResponse :=
  if rowCount = 0 then ⟨416, false, some "Collection not found"⟩ else ⟨200, true, none⟩

/-- GET /v1/assets/:asset_id as a function of the returned row count. -/
def getAssetByIdResponse (rowCount : Nat) : ApiResponse :=
  if rowCount = 0 then ⟨500, false, some "Asset not found"⟩ else ⟨200, true, none⟩

/-- C9.  On a missing entity the single-entity endpoints disagree: the sale
and collection endpoints answer HTTP 416 with success false, while the
auction and asset endpoints answer HTTP 500 with success false; the
not-found status code is not uniform. -/
theorem notFound_status_not_uniform :
    getSaleByIdResponse 0 = ⟨416, false, some "Sale not found"⟩ ∧
    getCollectionByNameResponse 0 = ⟨416, false, some "Collection not found"⟩ ∧
    getAuctionByIdResponse 0 = ⟨500, false, some "Auction not found"⟩ ∧
    getAssetByIdResponse 0 = ⟨500, false, some "Asset not found"⟩ ∧
    (getSaleByIdResponse 0).success = false ∧
    (getCollectionByNameResponse 0).success = false ∧
    (getAuctionByIdResponse 0).success = false ∧
    (getAssetByIdResponse 0).success = false ∧
    (getSaleByIdResponse 0).status ≠ (getAuctionByIdResponse 0).status := by
  refine ⟨rfl, rfl, rfl, rfl, rfl, rfl, rfl, rfl, by decide⟩

/-- The request body of POST /v1/token after the express json parse: a
field is none when it is absent or not of the checked type; block_num is
the parseInt result (none when NaN). -/
structure TokenRequest where
  block_num : Option Int
  nonce : Option String
  account : Option String
  permission : Option String
  signaturesOk : Bool
  deriving DecidableEq, Repr

/-- The environment the endpoint consults: whether the nonce is already
present in auth_tokens, whether get_block succeeds and the timestamp it
reports (in milliseconds), the current time, and whether the signature
recovery and the get_required_keys check succeed. -/
structure TokenEnv where
  nonceExists : Bool
  blockFound : Bool
  blockTimestampMs : Int
  nowMs : Int
  recoverOk : Bool
  requiredKeysOk : Bool
  deriving DecidableEq, Repr

/-- The observable outcome of POST /v1/token: the success flag, the
message of the json body (none when a token is issued) and whether a row
was inserted into auth_tokens. -/
structure TokenOutcome where
  success : Bool
  message : Option String
  inserted : Bool
  deriving DecidableEq, Repr

/-- POST /v1/token: the syntactic validations in source order, then the
nonce-reuse query, then get_block with the one-day freshness check on its
timestamp, then signature recovery and get_required_keys, and only then the
insert into auth_tokens. -/
def postToken (env : TokenEnv) (req : TokenRequest) : TokenOutcome :=
  match req.block_num with
  | none => ⟨false, some "Invalid block num received", false⟩
  | some bn =>
    if bn ≤ 0 then ⟨false, some "Invalid block num received", false⟩
    else match req.nonce with
    | none => ⟨false, some "Invalid nonce provided", false⟩
    | some nonce =>
      if nonce.length > 64 then ⟨false, some "Invalid nonce provided", false⟩
      else if req.account.isNone then ⟨false, some "Invalid account name provided", false⟩
      else if req.permission.isNone then ⟨false, some "Invalid permission name provided", false⟩
      else if !req.signaturesOk then ⟨false, some "Invalid signatures provided", false⟩
      else if env.nonceExists then ⟨false, some "Nonce already used", false⟩
      else if !env.blockFound then ⟨false, some "Internal Server Error", false⟩
      else if env.nowMs - env.blockTimestampMs > 3600 * 24 * 1000 then
        ⟨false, some "Reference block older than a day", false⟩
      else if !env.recoverOk then ⟨false, some "Internal Server Error", false⟩
      else if !env.requiredKeysOk then ⟨false, some "Authentication failed", false⟩
      else ⟨true, none, true⟩

/-- Whether the request passes all syntactic validations of the endpoint. -/
def validTokenRequest (req : TokenRequest) : Bool :=
  (match req.block_num with | some bn => decide (0 < bn) | none => false) &&
  (match req.nonce with | some n => decide (n.length ≤ 64) | none => false) &&
  req.account.isSome && req.permission.isSome && req.signaturesOk

/-- For a request that passes every syntactic validation, postToken
reduces to the chain of environment checks in source order. -/
theorem postToken_valid_shape (env : TokenEnv) (b : Int) (n av pv : String)
    (hb : 0 < b) (hn : n.length ≤ 64) :
    postToken env ⟨some b, some n, some av, some pv, true⟩ =
      (if env.nonceExists then ⟨false, some "Nonce already used", false⟩
       else if !env.blockFound then ⟨false, some "Internal Server Error", false⟩
       else if env.nowMs - env.blockTimestampMs > 3600 * 24 * 1000 then
         ⟨false, some "Reference block older than a day", false⟩
       else if !env.recoverOk then ⟨false, some "Internal Server Error", false⟩
       else if !env.requiredKeysOk then ⟨false, some "Authentication failed", false⟩
       else ⟨true, none, true⟩) := by
  show (if b ≤ 0 then _ else _) = _
  rw [if_neg (not_le.mpr hb)]
  show (if n.length > 64 then _ else _) = _
  rw [if_neg (not_lt.mpr hn)]
  rfl

/-- C10.  For a syntactically valid request: a nonce already present in
auth_tokens is rejected with Nonce already used and no insert; a fresh
nonce whose reference block timestamp lies more than 24 hours
(3600*24*1000 ms) in the past is rejected with Reference block older than
a day and no insert; and a token row is inserted only when the nonce is
fresh and the reference block is at most a day old. -/
theorem postToken_nonce_and_freshness (env : TokenEnv) (req : TokenRequest) :
    (validTokenRequest req = true → env.nonceExists = true →
      postToken env req = ⟨false, some "Nonce already used", false⟩) ∧
    (validTokenRequest req = true → env.nonceExists = false → env.blockFound = true →
      env.nowMs - env.blockTimestampMs > 3600 * 24 * 1000 →
      postToken env req = ⟨false, some "Reference block older than a day", false⟩) ∧
    ((postToken env req).inserted = true →
      env.nonceExists = false ∧ env.nowMs - env.blockTimestampMs ≤ 3600 * 24 * 1000) := by
  rcases req with ⟨bn, nonce, account, permission, sigs⟩
  refine ⟨?_, ?_, ?_⟩
  · intro hreq hnonce
    cases bn with
    | none => simp [validTokenRequest] at hreq
    | some b =>
      cases nonce with
      | none => simp [validTokenRequest] at hreq
      | some n =>
        cases account with
        | none => simp [validTokenRequest] at hreq
        | some av =>
          cases permission with
          | none => simp [validTokenRequest] at hreq
          | some pv =>
            simp only [validTokenRequest, Bool.and_eq_true, decide_eq_true_eq] at hreq
            obtain ⟨⟨⟨⟨hb, hn⟩, -⟩, -⟩, hsig⟩ := hreq
            subst hsig
            rw [postToken_valid_shape env b n av pv hb hn, if_pos hnonce]
  · intro hreq hnonce hfound hstale
    cases bn with
    | none => simp [validTokenRequest] at hreq
    | some b =>
      cases nonce with
      | none => simp [validTokenRequest] at hreq
      | some n =>
        cases account with
        | none => simp [validTokenRequest] at hreq
        | some av =>
          cases permission with
          | none => simp [validTokenRequest] at hreq
          | some pv =>
            simp only [validTokenRequest, Bool.and_eq_true, decide_eq_true_eq] at hreq
            obtain ⟨⟨⟨⟨hb, hn⟩, -⟩, -⟩, hsig⟩ := hreq
            subst hsig
            rw [postToken_valid_shape env b n av pv hb hn,
              if_neg (by simp [hnonce]), if_neg (by simp [hfound]), if_pos hstale]
  · intro hins
    cases bn with
    | none => simp [postToken] at hins
    | some b =>
      by_cases hb : b ≤ 0
      · simp [postToken, hb] at hins
      · cases nonce with
        | none => simp [postToken, hb] at hins
        | some n =>
          by_cases hn : n.length > 64
          · simp [postToken, hb, hn] at hins
          · cases account with
            | none => simp [postToken, hb, hn] at hins
            | some av =>
              cases permission with
              | none => simp [postToken, hb, hn] at hins
              | some pv =>
                cases sigs with
                | false => simp [postToken, hb, hn] at hins
                | true =>
                  rw [postToken_valid_shape env b n av pv (not_le.mp hb) (not_lt.mp hn)] at hins
                  by_cases hnonce : env.nonceExists = true
                  · rw [if_pos hnonce] at hins
                    simp at hins
                  · rw [if_neg hnonce] at hins
                    by_cases hfound : env.blockFound = true
                    · rw [if_neg (by simp [hfound])] at hins
                      by_cases hstale : env.nowMs - env.blockTimestampMs > 3600 * 24 * 1000
                      · rw [if_pos hstale] at hins
                        simp at hins
                      · exact ⟨by simpa using hnonce, by omega⟩
                    · rw [if_pos (by simp [Bool.not_eq_true] at hfound ⊢; exact hfound)] at hins
                      simp at hins

/-- A syntactically valid token request. -/
def req0 : TokenRequest := ⟨some 1000, some "abcdef", some "alice", some "active", true⟩

/-- An environment in which the nonce was already used. -/
def env0 : TokenEnv := ⟨true, true, 0, 1000, true, true⟩

theorem postToken_nonce_and_freshness_witness :
    postToken env0 req0 = ⟨false, some "Nonce already used", false⟩ :=
  (postToken_nonce_and_freshness env0 req0).1 (by decide) rfl

end EosioContractApi
